import Mathlib

/-!
Shallow embedding of the Gemini client service layer
(src/src/services/geminiService.ts and the variant module src/unnamed/part_000)
together with proofs about the claims of the specification.

External effects are modelled explicitly: the single network call made by each
function either throws or yields an optional response text, and the platform
builtin JSON.parse either throws or yields a JSON value.  The remaining logic
of every function (defaulting, splitting, try/catch substitution of fallback
values, field projection, slicing) is translated from the source.
-/

/- ### JavaScript string primitives used by the service -/

/-- Character class of the JavaScript regular-expression escape \s
(ECMAScript WhiteSpace and LineTerminator code points). This is the same set
that String.prototype.trim strips. -/
def isJsWhitespace (c : Char) : Bool :=
  let n := c.toNat
  n = 0x9 || n = 0xA || n = 0xB || n = 0xC || n = 0xD || n = 0x20 ||
  n = 0xA0 || n = 0x1680 || (0x2000 ≤ n && n ≤ 0x200A) ||
  n = 0x2028 || n = 0x2029 || n = 0x202F || n = 0x205F || n = 0x3000 || n = 0xFEFF

/-- JavaScript String.prototype.trim: strip leading and trailing whitespace. -/
def jsTrim (s : String) : String :=
  String.mk (((s.data.dropWhile isJsWhitespace).reverse.dropWhile isJsWhitespace).reverse)

/-- Truthiness of an optional JavaScript string: undefined and the empty
string are falsy, every other string is truthy. -/
def jsTruthyStr : Option String → Bool
  | none => false
  | some s => !s.isEmpty

/- ### The split performed by getChatResponseStream

`fullText.split(/(\s+)/)` scans the text for maximal runs of whitespace.
The substrings between the matches (possibly empty) and the captured
whitespace runs themselves appear in the result, in order. -/

/-- Longest whitespace run at the head of the list, together with the rest.
This is the remainder of one greedy match of the regular expression \s+. -/
def takeWsRun : List Char → List Char × List Char
  | [] => ([], [])
  | c :: cs =>
    if isJsWhitespace c then ((c :: (takeWsRun cs).1), (takeWsRun cs).2)
    else ([], c :: cs)

theorem takeWsRun_snd_length (l : List Char) : (takeWsRun l).2.length ≤ l.length := by
  induction l with
  | nil => simp [takeWsRun]
  | cons c cs ih =>
    simp only [takeWsRun]
    split
    · simpa using Nat.le_succ_of_le ih
    · simp

theorem takeWsRun_append (l : List Char) : (takeWsRun l).1 ++ (takeWsRun l).2 = l := by
  induction l with
  | nil => simp [takeWsRun]
  | cons c cs ih =>
    simp only [takeWsRun]
    split
    · simpa using ih
    · simp

/-- Scan loop of `split(/(\s+)/)`: `cur` is the segment accumulated since the
previous match; each whitespace run closes the current segment, emits the
captured run, and continues after it. -/
def splitWsGo (cur : List Char) : List Char → List (List Char)
  | [] => [cur]
  | c :: cs =>
    if isJsWhitespace c then
      cur :: (c :: (takeWsRun cs).1) :: splitWsGo [] (takeWsRun cs).2
    else
      splitWsGo (cur ++ [c]) cs
termination_by l => l.length
decreasing_by
  · exact Nat.lt_succ_of_le (takeWsRun_snd_length cs)
  · simp

/-- JavaScript `t.split(/(\s+)/)` on the character list of t. -/
def splitWsCapture (s : List Char) : List (List Char) :=
  splitWsGo [] s

set_option maxHeartbeats 2000000 in
theorem splitWsGo_flatten (cur : List Char) (l : List Char) :
    (splitWsGo cur l).flatten = cur ++ l := by
  induction cur, l using splitWsGo.induct with
  | case1 cur => simp [splitWsGo]
  | case2 cur c cs h ih =>
    simp only [splitWsGo, h, if_pos, List.flatten_cons, ih]
    simp [takeWsRun_append]
  | case3 cur c cs h ih =>
    simp only [splitWsGo, h, Bool.false_eq_true, if_false] at ih ⊢
    simp [ih]

theorem flatten_filter_nonempty (l : List (List Char)) :
    (l.filter (fun x => !x.isEmpty)).flatten = l.flatten := by
  induction l with
  | nil => rfl
  | cons x xs ih =>
    cases x with
    | nil => simpa [List.filter] using ih
    | cons a as => simp [List.filter, ih]

/- ### Outcome of one model call that is consumed as free text -/

/-- Result of the single awaited `ai.models.generateContent` call as seen by a
free-text call site: either the await threw, or it produced a response whose
`text` field is possibly undefined. -/
inductive ModelTextOutcome where
  | thrown
  | ok (text : Option String)

/-- Fixed message yielded by the catch branch of getChatResponseStream
(geminiService.ts lines 86 to 90). -/
def chatStreamErrorMessage : String :=
  "⚠️ Sorry, I ran into a problem talking to Gemini. Please check your API key and try again."

/-- Chunking of the full response text performed by getChatResponseStream
(geminiService.ts lines 79 to 85): split on the capturing whitespace pattern,
skip falsy chunks, yield the rest in order. -/
def getChatResponseStreamChunksOf (fullText : String) : List String :=
  ((splitWsCapture fullText.data).filter (fun c => !c.isEmpty)).map (fun l => String.mk l)

/-- The sequence of strings yielded by getChatResponseStream, as a function of
the outcome of its model call.  On success the full text is
`response.text ?? ""`; on a thrown error the catch yields one fixed message. -/
def getChatResponseStream (outcome : ModelTextOutcome) : List String :=
  match outcome with
  | ModelTextOutcome.ok t => getChatResponseStreamChunksOf (t.getD "")
  | ModelTextOutcome.thrown => [chatStreamErrorMessage]

/- ### Helper lemmas about concatenating the yielded chunks -/

theorem foldl_append_mk (l : List (List Char)) (s : List Char) :
    (l.map (fun c => String.mk c)).foldl (fun a b => a ++ b) (String.mk s)
      = String.mk (s ++ l.flatten) := by
  induction l generalizing s with
  | nil => simp
  | cons x xs ih =>
    simp only [List.map_cons, List.foldl_cons]
    have hmk : String.mk s ++ String.mk x = String.mk (s ++ x) := rfl
    rw [hmk, ih]
    simp

theorem join_map_mk (l : List (List Char)) :
    String.join (l.map (fun c => String.mk c)) = String.mk l.flatten := by
  have h := foldl_append_mk l []
  simpa [String.join] using h

/-- C1: For every string t returned by the model, the chunking performed by
getChatResponseStream (splitting t on the whitespace-capturing pattern,
dropping empty chunks, and yielding the rest in order) yields a sequence of
chunks whose concatenation is exactly t. -/
theorem getChatResponseStream_concat_roundtrip (t : String) :
    String.join (getChatResponseStream (ModelTextOutcome.ok (some t))) = t := by
  show String.join (getChatResponseStreamChunksOf t) = t
  unfold getChatResponseStreamChunksOf splitWsCapture
  rw [join_map_mk, flatten_filter_nonempty, splitWsGo_flatten]
  rfl

/-- C8: If the underlying model call throws, getChatResponseStream still
yields exactly one user-facing fallback text chunk (the fixed apology string)
and terminates normally; the exception is never propagated, the whole yielded
sequence being that single chunk. -/
theorem getChatResponseStream_error_single_chunk :
    getChatResponseStream ModelTextOutcome.thrown = [chatStreamErrorMessage]
    ∧ (getChatResponseStream ModelTextOutcome.thrown).length = 1 :=
  ⟨rfl, rfl⟩

/- ### JSON values and the outcome of a JSON-producing model call -/

/-- Dynamic JSON value as produced by the platform builtin JSON.parse.
Numbers are modelled as integers; none of the claims depends on numeric
semantics. -/
inductive Json where
  | null
  | bool (b : Bool)
  | num (n : Int)
  | str (s : String)
  | arr (elems : List Json)
  | obj (fields : List (String × Json))

/-- Result of `await ai.models.generateContent(...)` followed by
`JSON.parse` of the (defaulted) response text, as seen inside the try block
of a JSON call site: the await threw, or JSON.parse threw on the text, or
JSON.parse succeeded with a dynamic value. -/
inductive JsonCallOutcome where
  | thrown
  | parseFail
  | parsed (j : Json)

/-- Field projection on a dynamic value: some value when the base is an
object with that key, none otherwise. -/
def jsonField (j : Json) (field : String) : Option Json :=
  match j with
  | Json.obj fields => fields.lookup field
  | _ => none

/-- Whether a dynamic value carries the given object field. -/
def jsonHasField (j : Json) (field : String) : Bool :=
  (jsonField j field).isSome

/-- Whether a dynamic value is an array. -/
def isJsonArray : Json → Bool
  | Json.arr _ => true
  | _ => false

/-- Whether a dynamic value is null. -/
def isJsonNull : Json → Bool
  | Json.null => true
  | _ => false

/-- Whether every field of a required set is present on a dynamic value. -/
def hasRequiredFields (j : Json) (required : List String) : Bool :=
  required.all (fun f => jsonHasField j f)

/-- Evaluation of `parsed.FIELD ?? []` inside the try block of the
list-returning call sites: a member access on null throws (the catch then
returns the empty array), a member access on any other non-object value is
undefined and coalesces to the empty array, a null or absent field coalesces
to the empty array, and any other present field value is returned as is. -/
def jsFieldOrEmptyList (j : Json) (field : String) : Json :=
  match j with
  | Json.obj fields =>
    match fields.lookup field with
    | some Json.null => Json.arr []
    | some v => v
    | none => Json.arr []
  | _ => Json.arr []

/- ### The structured and list-returning call sites -/

/-- Fallback Challenge returned by the catch branch of getCodingChallenge
(geminiService.ts lines 233 to 242). -/
def fallbackChallenge : Json :=
  Json.obj
    [("title", Json.str "Challenge unavailable"),
     ("description", Json.str "I couldn't generate a new challenge right now. Please try again in a moment!"),
     ("exampleInput", Json.str ""),
     ("exampleOutput", Json.str "")]

/-- Required field set of the Challenge shape requested from the model. -/
def challengeRequiredFields : List String :=
  ["title", "description", "exampleInput", "exampleOutput"]

/-- getCodingChallenge (geminiService.ts lines 206 to 243): the parsed JSON
is returned as is (the `as Challenge` assertion has no runtime effect); any
thrown error is replaced by the fixed fallback. -/
def getCodingChallenge (outcome : JsonCallOutcome) : Json :=
  match outcome with
  | JsonCallOutcome.parsed j => j
  | _ => fallbackChallenge

/-- Fallback EvaluationResult returned by the catch branch of
evaluateCodeSolution (geminiService.ts lines 285 to 293). -/
def fallbackEvaluationResult : Json :=
  Json.obj
    [("isCorrect", Json.bool false),
     ("simulatedOutput", Json.str "An internal error occurred while evaluating the code."),
     ("feedback", Json.str "I wasn't able to check your code this time. Please try again in a moment!")]

/-- Required field set of the EvaluationResult shape requested from the model. -/
def evaluationRequiredFields : List String :=
  ["isCorrect", "simulatedOutput", "feedback"]

/-- evaluateCodeSolution (geminiService.ts lines 248 to 294): the parsed JSON
is returned as is; any thrown error is replaced by the fixed fallback. -/
def evaluateCodeSolution (outcome : JsonCallOutcome) : Json :=
  match outcome with
  | JsonCallOutcome.parsed j => j
  | _ => fallbackEvaluationResult

/-- findProjects (geminiService.ts lines 96 to 139): returns
`parsed.projects ?? []`, and the empty array from the catch branch. -/
def findProjects (outcome : JsonCallOutcome) : Json :=
  match outcome with
  | JsonCallOutcome.parsed j => jsFieldOrEmptyList j "projects"
  | _ => Json.arr []

/-- scanForInputRequirements (geminiService.ts lines 299 to 333): returns
`parsed.prompts ?? []`, and the empty array from the catch branch. -/
def scanForInputRequirements (outcome : JsonCallOutcome) : Json :=
  match outcome with
  | JsonCallOutcome.parsed j => jsFieldOrEmptyList j "prompts"
  | _ => Json.arr []

/-- getCodeCompletions response handling (geminiService.ts lines 378 to 417):
returns `parsed.suggestions ?? []`, and the empty array from the catch
branch. -/
def getCodeCompletionsResult (outcome : JsonCallOutcome) : Json :=
  match outcome with
  | JsonCallOutcome.parsed j => jsFieldOrEmptyList j "suggestions"
  | _ => Json.arr []

theorem jsFieldOrEmptyList_not_null (j : Json) (field : String) :
    isJsonNull (jsFieldOrEmptyList j field) = false := by
  cases j with
  | obj fields =>
    cases hl : fields.lookup field with
    | none => simp [jsFieldOrEmptyList, hl, isJsonNull]
    | some v => cases v <;> simp [jsFieldOrEmptyList, hl, isJsonNull]
  | null => rfl
  | bool b => rfl
  | num n => rfl
  | str s => rfl
  | arr elems => rfl

/- ### Claims C2, C3 and C4 -/

/-- C2 counterexample: a model response that parses to the empty JSON object
is returned by getCodingChallenge as is, although it misses every required
Challenge field; it is not replaced by the fallback (which does carry all
required fields). -/
theorem getCodingChallenge_missing_required_returned :
    getCodingChallenge (JsonCallOutcome.parsed (Json.obj [])) = Json.obj []
    ∧ hasRequiredFields (getCodingChallenge (JsonCallOutcome.parsed (Json.obj [])))
        challengeRequiredFields = false
    ∧ hasRequiredFields fallbackChallenge challengeRequiredFields = true
    ∧ hasRequiredFields fallbackEvaluationResult evaluationRequiredFields = true :=
  ⟨rfl, rfl, rfl, rfl⟩

/-- C2 amended: the structured calls perform no local required-field
validation.  A successfully parsed model response is returned verbatim, even
when required fields are missing; only a thrown transport error or a JSON
parse failure triggers the fixed fallback value. -/
theorem structured_calls_fallback_or_verbatim (j : Json) :
    getCodingChallenge (JsonCallOutcome.parsed j) = j
    ∧ evaluateCodeSolution (JsonCallOutcome.parsed j) = j
    ∧ getCodingChallenge JsonCallOutcome.thrown = fallbackChallenge
    ∧ getCodingChallenge JsonCallOutcome.parseFail = fallbackChallenge
    ∧ evaluateCodeSolution JsonCallOutcome.thrown = fallbackEvaluationResult
    ∧ evaluateCodeSolution JsonCallOutcome.parseFail = fallbackEvaluationResult :=
  ⟨rfl, rfl, rfl, rfl, rfl, rfl⟩

/-- C3: If the underlying model call (or JSON parse) throws, getCodingChallenge
returns exactly its one fixed fallback Challenge record and
evaluateCodeSolution returns exactly its one fixed fallback EvaluationResult
record, whose isCorrect field is false. -/
theorem fallbacks_on_thrown_exact :
    getCodingChallenge JsonCallOutcome.thrown = fallbackChallenge
    ∧ getCodingChallenge JsonCallOutcome.parseFail = fallbackChallenge
    ∧ evaluateCodeSolution JsonCallOutcome.thrown = fallbackEvaluationResult
    ∧ evaluateCodeSolution JsonCallOutcome.parseFail = fallbackEvaluationResult
    ∧ jsonField fallbackEvaluationResult "isCorrect" = some (Json.bool false) :=
  ⟨rfl, rfl, rfl, rfl, rfl⟩

/-- C4 counterexample: on a successful model call whose parsed response binds
the expected key to a non-array value, scanForInputRequirements returns that
value unchanged, which is not a sequence. -/
theorem scanForInputRequirements_nonarray_returned :
    scanForInputRequirements
        (JsonCallOutcome.parsed (Json.obj [("prompts", Json.str "Enter a number:")]))
      = Json.str "Enter a number:"
    ∧ isJsonArray (Json.str "Enter a number:") = false := by
  constructor
  · simp [scanForInputRequirements, jsFieldOrEmptyList, List.lookup]
  · rfl

/-- C4 amended: each list-returning call never produces null or undefined; on
a thrown transport error or a JSON parse failure it returns the empty array;
but on a successful parse the field value is passed through without checking
that it is an array. -/
theorem list_calls_never_null_empty_on_failure (outcome : JsonCallOutcome) :
    isJsonNull (findProjects outcome) = false
    ∧ isJsonNull (scanForInputRequirements outcome) = false
    ∧ isJsonNull (getCodeCompletionsResult outcome) = false
    ∧ findProjects JsonCallOutcome.thrown = Json.arr []
    ∧ findProjects JsonCallOutcome.parseFail = Json.arr []
    ∧ scanForInputRequirements JsonCallOutcome.thrown = Json.arr []
    ∧ scanForInputRequirements JsonCallOutcome.parseFail = Json.arr []
    ∧ getCodeCompletionsResult JsonCallOutcome.thrown = Json.arr []
    ∧ getCodeCompletionsResult JsonCallOutcome.parseFail = Json.arr [] := by
  refine ⟨?_, ?_, ?_, rfl, rfl, rfl, rfl, rfl, rfl⟩ <;>
    cases outcome <;>
    first
      | rfl
      | exact jsFieldOrEmptyList_not_null _ _

/- ### Client construction at module load (claim C5) -/

/-- The client handle created by `new GoogleGenAI(...)`: it stores whatever
credential value was supplied, present or not. -/
structure GeminiClient where
  apiKey : Option String
deriving DecidableEq

/-- Outcome of evaluating the top level of a service module: the module
loaded (possibly after printing a console warning) with its client
constructed, or a thrown error aborted the load. -/
inductive ModuleInitResult where
  | loaded (warned : Bool) (client : GeminiClient)
  | failed (message : String)
deriving DecidableEq

/-- Whether module evaluation completed. -/
def isModuleLoaded : ModuleInitResult → Bool
  | ModuleInitResult.loaded _ _ => true
  | ModuleInitResult.failed _ => false

/-- Top level of src/src/services/geminiService.ts (lines 4 to 14): a missing
or empty API_KEY only triggers console.warn, then the client is constructed
unconditionally with the value of the environment variable. -/
def geminiServiceModuleInit (apiKeyEnv : Option String) : ModuleInitResult :=
  ModuleInitResult.loaded (!jsTruthyStr apiKeyEnv) { apiKey := apiKeyEnv }

/-- Top level of src/unnamed/part_000 (lines 16 to 24): a missing or empty
API_KEY throws at module load; otherwise the client is constructed. -/
def part000ModuleInit (apiKeyEnv : Option String) : ModuleInitResult :=
  if jsTruthyStr apiKeyEnv then
    ModuleInitResult.loaded false { apiKey := apiKeyEnv }
  else
    ModuleInitResult.failed
      "API_KEY environment variable not set. Make sure GEMINI_API_KEY is configured in Vercel / .env."

/-- C5 counterexample: loading the part_000 variant without the credential
does not succeed; the configuration error is raised during module evaluation
itself, not deferred to the first real use of the client. -/
theorem part000_load_without_key_fails :
    isModuleLoaded (part000ModuleInit none) = false
    ∧ part000ModuleInit none
        = ModuleInitResult.failed
            "API_KEY environment variable not set. Make sure GEMINI_API_KEY is configured in Vercel / .env." :=
  ⟨rfl, rfl⟩

/-- C5 amended: the client is constructed eagerly at module load, not lazily.
geminiService.ts always completes its load, constructing the client with
whatever credential value is present and warning exactly when the credential
is absent, and it never raises a configuration error itself; the part_000
variant instead raises the configuration error at module load whenever the
credential is absent. -/
theorem client_constructed_eagerly_at_load (key : Option String) :
    geminiServiceModuleInit key
      = ModuleInitResult.loaded (!jsTruthyStr key) { apiKey := key }
    ∧ isModuleLoaded (geminiServiceModuleInit key) = true
    ∧ part000ModuleInit (some "k") = ModuleInitResult.loaded false { apiKey := some "k" }
    ∧ isModuleLoaded (part000ModuleInit none) = false :=
  ⟨rfl, rfl, rfl, rfl⟩

/- ### runCode (claim C6) -/

/-- runCode (geminiService.ts lines 338 to 373): trim the defaulted response
text; an empty result is replaced by the placeholder, and the catch branch
returns a fixed error string. -/
def runCode (outcome : ModelTextOutcome) : String :=
  match outcome with
  | ModelTextOutcome.ok t =>
    let text := jsTrim (t.getD "")
    if text.isEmpty then "[No output]" else text
  | ModelTextOutcome.thrown => "An internal error occurred while trying to run the code."

/-- C6 counterexample: for the model response consisting of blanks, the
successful result of runCode is the placeholder string, not the trimmed
response text, which is empty; the two differ. -/
theorem runCode_blank_response_placeholder :
    runCode (ModelTextOutcome.ok (some "   ")) = "[No output]"
    ∧ jsTrim "   " = ""
    ∧ ("[No output]" == jsTrim "   ") = false := by
  refine ⟨?_, by decide, by decide⟩
  decide

/-- C6 amended: a successful runCode call returns the response text verbatim
after trimming surrounding whitespace whenever that trimmed text is nonempty;
when the trimmed text is empty the fixed placeholder is returned instead. -/
theorem runCode_returns_trimmed_text (t : String) (h : (jsTrim t).isEmpty = false) :
    runCode (ModelTextOutcome.ok (some t)) = jsTrim t := by
  simp [runCode, h]

theorem runCode_returns_trimmed_text_witness :
    (jsTrim "  hi ").isEmpty = false
    ∧ runCode (ModelTextOutcome.ok (some "  hi ")) = jsTrim "  hi " :=
  ⟨by decide, runCode_returns_trimmed_text "  hi " (by decide)⟩

/- ### buildContents (claim C7) -/

/-- Inline image payload: MIME type plus base64 data. -/
structure InlineData where
  mimeType : String
  data : String
deriving DecidableEq

/-- The image slot of an application message part; its inlineData may be
absent. -/
structure PartImage where
  inlineData : Option InlineData
deriving DecidableEq

/-- One part of an application Message: optional text and optional image. -/
structure MessagePart where
  text : Option String
  image : Option PartImage
deriving DecidableEq

/-- One turn of the application conversation history. -/
structure Message where
  role : String
  parts : List MessagePart
deriving DecidableEq

/-- One content part of the request sent to the model. -/
inductive ContentPart where
  | text (s : String)
  | inlineData (d : InlineData)
deriving DecidableEq

/-- Whether a request content part is an inline image part. -/
def isInlineDataPart : ContentPart → Bool
  | ContentPart.inlineData _ => true
  | ContentPart.text _ => false

/-- One role-tagged message of the request sent to the model. -/
structure Content where
  role : String
  parts : List ContentPart
deriving DecidableEq

/-- Evaluation of the optional chain `part.image?.inlineData`. -/
def partInlineData (part : MessagePart) : Option InlineData :=
  part.image.bind (fun img => img.inlineData)

/-- Body of the flatMap of buildContents (geminiService.ts lines 24 to 31):
push a text part when part.text is truthy, then an inlineData part when
`part.image?.inlineData` is truthy. -/
def partToApiParts (part : MessagePart) : List ContentPart :=
  (if jsTruthyStr part.text then [ContentPart.text (part.text.getD "")] else [])
  ++ (match partInlineData part with
      | some d => [ContentPart.inlineData d]
      | none => [])

/-- Mapping of one history turn performed inside buildContents. -/
def messageToContent (msg : Message) : Content :=
  { role := msg.role, parts := msg.parts.flatMap partToApiParts }

/-- buildContents (geminiService.ts lines 21 to 33). -/
def buildContents (history : List Message) : List Content :=
  history.map messageToContent

theorem flatMap_image_only (parts : List MessagePart)
    (h : ∀ p ∈ parts, jsTruthyStr p.text = false ∧ (partInlineData p).isSome = true) :
    (parts.flatMap partToApiParts).length = parts.length
    ∧ ∀ cp ∈ parts.flatMap partToApiParts, isInlineDataPart cp = true := by
  induction parts with
  | nil => simp
  | cons p ps ih =>
    obtain ⟨htext, himg⟩ := h p (List.mem_cons_self p ps)
    obtain ⟨d, hd⟩ := Option.isSome_iff_exists.mp himg
    obtain ⟨ihlen, ihall⟩ := ih (fun q hq => h q (List.mem_cons_of_mem p hq))
    constructor
    · simp [List.flatMap_cons, partToApiParts, htext, hd, ihlen]
    · intro cp hcp
      rw [List.flatMap_cons] at hcp
      rcases List.mem_append.mp hcp with hcp1 | hcp2
      · simp [partToApiParts, htext, hd] at hcp1
        rw [hcp1]
        rfl
      · exact ihall cp hcp2

theorem flatMap_empty_parts (parts : List MessagePart)
    (h : ∀ p ∈ parts, jsTruthyStr p.text = false ∧ partInlineData p = none) :
    parts.flatMap partToApiParts = [] := by
  induction parts with
  | nil => rfl
  | cons p ps ih =>
    obtain ⟨htext, himg⟩ := h p (List.mem_cons_self p ps)
    rw [List.flatMap_cons, ih (fun q hq => h q (List.mem_cons_of_mem p hq))]
    simp [partToApiParts, htext, himg]

/-- C7: buildContents maps the history turn by turn preserving length, order
and role; a turn whose parts all carry only an image contributes exactly one
inlineData part per original part and no text part, so a turn with a single
image-only part yields exactly one inlineData part; and a turn with no
truthy text and no image contributes zero content parts. -/
theorem buildContents_turn_mapping (history : List Message) (msg : Message) :
    (buildContents history).length = history.length
    ∧ (buildContents history).map Content.role = history.map Message.role
    ∧ ((∀ p ∈ msg.parts, jsTruthyStr p.text = false ∧ (partInlineData p).isSome = true) →
        (messageToContent msg).parts.length = msg.parts.length
        ∧ ∀ cp ∈ (messageToContent msg).parts, isInlineDataPart cp = true)
    ∧ ((∀ p ∈ msg.parts, jsTruthyStr p.text = false ∧ partInlineData p = none) →
        (messageToContent msg).parts = []) := by
  refine ⟨by simp [buildContents], ?_, ?_, ?_⟩
  · simp [buildContents, List.map_map]
    intro a _
    rfl
  · intro h
    exact flatMap_image_only msg.parts h
  · intro h
    exact flatMap_empty_parts msg.parts h

/-- Concrete image-only part used to instantiate the C7 theorem. -/
def witnessImagePart : MessagePart :=
  { text := none,
    image := some { inlineData := some { mimeType := "image/png", data := "QUJD" } } }

/-- Concrete single-image turn used to instantiate the C7 theorem. -/
def witnessImageMessage : Message :=
  { role := "user", parts := [witnessImagePart] }

theorem buildContents_turn_mapping_witness :
    (buildContents [witnessImageMessage]).length = 1
    ∧ (messageToContent witnessImageMessage).parts.length = 1 := by
  have h := buildContents_turn_mapping [witnessImageMessage] witnessImageMessage
  obtain ⟨hlen, _, himg, _⟩ := h
  have himgparts := himg (by decide)
  exact ⟨hlen, himgparts.1⟩

/- ### encodeURIComponent and the job search link table (claim C9) -/

/-- Characters left unescaped by encodeURIComponent: letters, digits and
- _ . ! ~ * apostrophe ( ) . -/
def isUriUnescaped (c : Char) : Bool :=
  let n := c.toNat
  (65 ≤ n && n ≤ 90) || (97 ≤ n && n ≤ 122) || (48 ≤ n && n ≤ 57) ||
  n = 45 || n = 95 || n = 46 || n = 33 || n = 126 || n = 42 || n = 39 || n = 40 || n = 41

/-- Uppercase hexadecimal digit character of a value below 16. -/
def uriHexDigit (n : Nat) : Char :=
  if n < 10 then Char.ofNat (48 + n) else Char.ofNat (55 + n)

/-- Percent encoding of one byte. -/
def percentEncodeByte (b : Nat) : List Char :=
  [Char.ofNat 37, uriHexDigit (b / 16), uriHexDigit (b % 16)]

/-- UTF-8 byte sequence of one code point. -/
def utf8BytesOfChar (c : Char) : List Nat :=
  let n := c.toNat
  if n < 128 then [n]
  else if n < 2048 then [192 + n / 64, 128 + n % 64]
  else if n < 65536 then [224 + n / 4096, 128 + (n / 64) % 64, 128 + n % 64]
  else [240 + n / 262144, 128 + (n / 4096) % 64, 128 + (n / 64) % 64, 128 + n % 64]

/-- JavaScript global encodeURIComponent. -/
def encodeURIComponent (s : String) : String :=
  String.mk (s.data.flatMap (fun c =>
    if isUriUnescaped c then [c] else (utf8BytesOfChar c).flatMap percentEncodeByte))

/-- ASCII action of one character under String.prototype.toLowerCase. -/
def asciiLowerChar (c : Char) : Char :=
  if 65 ≤ c.toNat && c.toNat ≤ 90 then Char.ofNat (c.toNat + 32) else c

/-- JavaScript String.prototype.toLowerCase, restricted to its ASCII action.
The source applies it only to the output of encodeURIComponent, which is
always an ASCII string, so the restriction is exact there. -/
def jsToLowerCase (s : String) : String :=
  String.mk (s.data.map asciiLowerChar)

/-- One entry of the job search link table. -/
structure JobLink where
  name : String
  url : String
deriving DecidableEq

/-- getJobSearchLinks (geminiService.ts lines 144 to 201): a fixed catalogue
of search URL templates built from the URL-encoded language, two of them from
its lowercased form. -/
def getJobSearchLinks (language : String) : List (String × List JobLink) :=
  let encoded := encodeURIComponent language
  [("Global Job Platforms",
    [{ name := "LinkedIn Jobs",
       url := "https://www.linkedin.com/jobs/search/?keywords=" ++ encoded ++ "%20Developer" },
     { name := "Indeed",
       url := "https://www.indeed.com/jobs?q=" ++ encoded ++ "+Developer" },
     { name := "Glassdoor",
       url := "https://www.glassdoor.com/Job/jobs.htm?sc.keyword=" ++ encoded ++ "%20Developer" },
     { name := "Google Jobs",
       url := "https://www.google.com/search?q=" ++ encoded ++ "+developer+jobs" }]),
   ("Remote-First Platforms",
    [{ name := "RemoteOK",
       url := "https://remoteok.com/remote-" ++ encoded ++ "-jobs" },
     { name := "We Work Remotely",
       url := "https://weworkremotely.com/remote-jobs/search?term=" ++ encoded },
     { name := "Remotive",
       url := "https://remotive.com/remote-jobs/search?search=" ++ encoded },
     { name := "Working Nomads",
       url := "https://www.workingnomads.com/jobs?category=" ++ jsToLowerCase encoded }]),
   ("Tech-Specific Boards",
    [{ name := "Dice",
       url := "https://www.dice.com/jobs?q=" ++ encoded },
     { name := "Wellfound (AngelList Talent)",
       url := "https://wellfound.com/role/" ++ jsToLowerCase encoded ++ "-developer" },
     { name := "Stack Overflow Jobs (archive)",
       url := "https://stackoverflow.com/jobs?q=" ++ encoded }])]

/- ### Substring occurrence -/

/-- Whether the first list is a prefix of the second. -/
def charsPrefixOf : List Char → List Char → Bool
  | [], _ => true
  | _ :: _, [] => false
  | a :: as, b :: bs => a == b && charsPrefixOf as bs

/-- Whether the first list occurs as a contiguous segment of the second. -/
def hasSubstr (sub : List Char) : List Char → Bool
  | [] => sub.isEmpty
  | c :: cs => charsPrefixOf sub (c :: cs) || hasSubstr sub cs

/-- Whether a URL mentions a piece of text. -/
def urlMentions (url piece : String) : Bool :=
  hasSubstr piece.data url.data

theorem charsPrefixOf_append (sub rest : List Char) :
    charsPrefixOf sub (sub ++ rest) = true := by
  induction sub with
  | nil => rfl
  | cons a as ih => simp [charsPrefixOf, ih]

theorem hasSubstr_of_prefix (sub l : List Char) (h : charsPrefixOf sub l = true) :
    hasSubstr sub l = true := by
  cases l with
  | nil =>
    cases sub with
    | nil => rfl
    | cons a as => simp [charsPrefixOf] at h
  | cons c cs => simp [hasSubstr, h]

theorem hasSubstr_cons (sub : List Char) (c : Char) (cs : List Char)
    (h : hasSubstr sub cs = true) : hasSubstr sub (c :: cs) = true := by
  simp [hasSubstr, h]

theorem hasSubstr_append (pre sub suf : List Char) :
    hasSubstr sub (pre ++ (sub ++ suf)) = true := by
  induction pre with
  | nil =>
    simp only [List.nil_append]
    exact hasSubstr_of_prefix _ _ (charsPrefixOf_append sub suf)
  | cons p ps ih =>
    rw [List.cons_append]
    exact hasSubstr_cons _ _ _ ih

theorem urlMentions_mid (a b c : String) : urlMentions (a ++ b ++ c) b = true := by
  unfold urlMentions
  rw [String.data_append, String.data_append, List.append_assoc]
  exact hasSubstr_append a.data b.data c.data

theorem urlMentions_end (a b : String) : urlMentions (a ++ b) b = true := by
  unfold urlMentions
  rw [String.data_append]
  have h := hasSubstr_append a.data b.data []
  simpa using h

/-- C9 counterexample: for the language "Python" (whose URL-encoded form is
"Python" itself), the Working Nomads URL of the returned table is built from
the lowercased encoding and does not embed the URL-encoded form of the
input language. -/
theorem getJobSearchLinks_lowercase_url_counterexample :
    encodeURIComponent "Python" = "Python"
    ∧ ({ name := "Working Nomads",
         url := "https://www.workingnomads.com/jobs?category=python" } : JobLink)
        ∈ ((getJobSearchLinks "Python").getD 1 ("", [])).2
    ∧ urlMentions "https://www.workingnomads.com/jobs?category=python" "Python" = false := by
  refine ⟨by decide, by decide, by decide⟩

/-- C9 amended: getJobSearchLinks is a pure function of the language (so two
calls with the same language return identical tables and no network access is
involved), and every URL of the table embeds either the URL-encoded form of
the input language or the lowercased URL-encoded form. -/
theorem getJobSearchLinks_urls_embed_encoded (language : String) :
    ∀ group ∈ getJobSearchLinks language, ∀ link ∈ group.2,
      (urlMentions link.url (encodeURIComponent language)
       || urlMentions link.url (jsToLowerCase (encodeURIComponent language))) = true := by
  intro group hg link hl
  simp only [getJobSearchLinks, List.mem_cons, List.not_mem_nil, or_false] at hg
  rcases hg with rfl | rfl | rfl <;>
    simp only [List.mem_cons, List.not_mem_nil, or_false] at hl <;>
    rcases hl with rfl | rfl | rfl | rfl <;>
    simp [urlMentions_mid, urlMentions_end]

theorem getJobSearchLinks_urls_embed_encoded_witness :
    (urlMentions ("https://www.dice.com/jobs?q=" ++ encodeURIComponent "Python")
        (encodeURIComponent "Python")
     || urlMentions ("https://www.dice.com/jobs?q=" ++ encodeURIComponent "Python")
        (jsToLowerCase (encodeURIComponent "Python"))) = true :=
  getJobSearchLinks_urls_embed_encoded "Python"
    ("Tech-Specific Boards",
     [{ name := "Dice",
        url := "https://www.dice.com/jobs?q=" ++ encodeURIComponent "Python" },
      { name := "Wellfound (AngelList Talent)",
        url := "https://wellfound.com/role/" ++ jsToLowerCase (encodeURIComponent "Python") ++ "-developer" },
      { name := "Stack Overflow Jobs (archive)",
        url := "https://stackoverflow.com/jobs?q=" ++ encodeURIComponent "Python" }])
    (by decide)
    { name := "Dice", url := "https://www.dice.com/jobs?q=" ++ encodeURIComponent "Python" }
    (by decide)

/- ### The cursor marker of getCodeCompletions (claim C10) -/

/-- Clamping of one slice index by JavaScript String.prototype.slice: a
negative index counts from the end of the string and the result is clamped
into [0, length]. -/
def jsClampIndex (len : Nat) (i : Int) : Nat :=
  if i < 0 then len - min len i.natAbs else min i.toNat len

/-- JavaScript String.prototype.slice with optional end index: the characters
of positions [start, end) after clamping, empty when the range is reversed. -/
def jsSlice (s : String) (start : Int) (stop : Option Int) : String :=
  let len := s.data.length
  let b := jsClampIndex len start
  let e := match stop with
           | none => len
           | some i => jsClampIndex len i
  String.mk ((s.data.take e).drop b)

/-- The marker inserted into the code sent to the model. -/
def cursorMarker : String := "[CURSOR]"

/-- Construction of the marked code by getCodeCompletions (geminiService.ts
lines 386 to 389): `userCode.slice(0, cursorPosition) + "[CURSOR]" +
userCode.slice(cursorPosition)`. -/
def codeWithCursor (userCode : String) (cursorPosition : Int) : String :=
  jsSlice userCode 0 (some cursorPosition) ++ cursorMarker
    ++ jsSlice userCode cursorPosition none

/-- Deletion of the n characters starting at position i. -/
def removeSliceAt (s : String) (i n : Nat) : String :=
  String.mk (s.data.take i ++ s.data.drop (i + n))

theorem string_mk_append (a b : List Char) :
    String.mk a ++ String.mk b = String.mk (a ++ b) := rfl

theorem jsClampIndex_zero (len : Nat) : jsClampIndex len 0 = 0 := by
  simp [jsClampIndex]

theorem jsSlice_from_zero (s : String) (p : Int) :
    jsSlice s 0 (some p) = String.mk (s.data.take (jsClampIndex s.data.length p)) := by
  simp [jsSlice, jsClampIndex_zero]

theorem jsSlice_to_end (s : String) (p : Int) :
    jsSlice s p none = String.mk (s.data.drop (jsClampIndex s.data.length p)) := by
  show String.mk ((s.data.take s.data.length).drop (jsClampIndex s.data.length p))
      = String.mk (s.data.drop (jsClampIndex s.data.length p))
  rw [List.take_length]

theorem removeSliceAt_restore (pre mid suf : List Char) :
    removeSliceAt (String.mk pre ++ String.mk mid ++ String.mk suf) pre.length mid.length
      = String.mk (pre ++ suf) := by
  unfold removeSliceAt
  rw [string_mk_append, string_mk_append]
  show String.mk (((pre ++ mid) ++ suf).take pre.length
      ++ ((pre ++ mid) ++ suf).drop (pre.length + mid.length)) = String.mk (pre ++ suf)
  rw [List.append_assoc, List.take_left, ← List.length_append, ← List.append_assoc,
    List.drop_left]

/-- C10: For every code string and every cursorPosition (clamped by slice,
including 0, the length and out-of-range values), the marked code equals the
prefix before the cursor, then the literal marker, then the suffix; the
prefix and suffix concatenate back to the original code, and deleting the
single inserted marker occurrence from the marked code recovers exactly the
original code string. -/
theorem getCodeCompletions_cursor_roundtrip (userCode : String) (p : Int) :
    jsSlice userCode 0 (some p) ++ jsSlice userCode p none = userCode
    ∧ codeWithCursor userCode p
        = jsSlice userCode 0 (some p) ++ cursorMarker ++ jsSlice userCode p none
    ∧ removeSliceAt (codeWithCursor userCode p)
        (jsSlice userCode 0 (some p)).length cursorMarker.length = userCode := by
  refine ⟨?_, rfl, ?_⟩
  · rw [jsSlice_from_zero, jsSlice_to_end, string_mk_append, List.take_append_drop]
  · unfold codeWithCursor
    rw [jsSlice_from_zero, jsSlice_to_end]
    have h := removeSliceAt_restore
      (userCode.data.take (jsClampIndex userCode.data.length p))
      cursorMarker.data
      (userCode.data.drop (jsClampIndex userCode.data.length p))
    simpa [List.take_append_drop] using h
